import Mathlib

/-!
Shallow embedding of the render scheduling and draw-queueing core of
`rust-sqgui` (`src/render.rs`, `src/assets.rs`).

Rust `HashMap<String, V>` values are embedded as association lists
`List (String × V)` with lookup / erase / insert operations; the source
never iterates over these maps (it only looks keys up, removes them and
clears the map), so the association-list representation is extensionally
faithful.

Rust `f32` scalars that are mere payload data (uv rectangles, positions,
tint colours) are embedded as `Rat`; no verified claim computes with them.
The one `f32` whose arithmetic matters is `Renderer.depth_counter`, which
the source initialises to `0.0` and mutates only by `+= 1.0`; on that orbit
every value is a nonnegative integer, the addition is exact below
`2 ^ 24 = 16777216`, and at `2 ^ 24` the sum `2 ^ 24 + 1` is not
representable in `f32` and rounds to nearest-even `2 ^ 24`, so the counter
saturates.  We therefore embed it as a `Nat` with the saturating successor
`f32succ`, which is exact with respect to IEEE-754 single precision for
every reachable value.
-/

namespace SQGui

/-- Slotmap keys (`new_key_type!` in `src/assets.rs`): opaque handles.
Freshness of slotmap insertion is modelled by an increasing `Nat`. -/
abbrev TextureKey := Nat

abbrev ShaderKey := Nat

abbrev MaterialKey := Nat

abbrev VertexBufferKey := Nat

abbrev IndexBufferKey := Nat

abbrev AssetName := String

abbrev RenderTargetName := String

abbrev RenderPassName := String

/-- Association-list lookup, embedding `HashMap::get`. -/
def lookupName {α : Type} (m : List (String × α)) (k : String) : Option α :=
  (m.find? (fun e => e.1 == k)).map (fun e => e.2)

/-- Remove every binding of key `k`, embedding `HashMap::remove`'s effect on the map. -/
def eraseName {α : Type} (m : List (String × α)) (k : String) : List (String × α) :=
  m.filter (fun e => !(e.1 == k))

/-- Insert (or overwrite) a binding, embedding `HashMap::insert`. -/
def insertName {α : Type} (m : List (String × α)) (k : String) (v : α) :
    List (String × α) :=
  (k, v) :: eraseName m k

/-- Key membership, embedding `HashMap::contains_key`. -/
def containsName {α : Type} (m : List (String × α)) (k : String) : Bool :=
  (lookupName m k).isSome

theorem lookupName_nil {α : Type} (k : String) :
    lookupName ([] : List (String × α)) k = none := rfl

theorem lookupName_cons {α : Type} (e : String × α) (m : List (String × α)) (k : String) :
    lookupName (e :: m) k = if e.1 == k then some e.2 else lookupName m k := by
  by_cases h : e.1 == k <;> simp [lookupName, List.find?, h]

theorem eraseName_cons {α : Type} (e : String × α) (m : List (String × α)) (k : String) :
    eraseName (e :: m) k =
      if e.1 = k then eraseName m k else e :: eraseName m k := by
  by_cases h : e.1 = k <;> simp [eraseName, List.filter_cons, h]

theorem lookupName_eraseName {α : Type} (m : List (String × α)) (k q : String) :
    lookupName (eraseName m k) q = if q = k then none else lookupName m q := by
  induction m with
  | nil => simp [eraseName, lookupName]
  | cons e m ih =>
    rw [eraseName_cons]
    by_cases he : e.1 = k
    · rw [if_pos he, ih, lookupName_cons]
      by_cases hq : q = k
      · simp [hq]
      · have : (e.1 == q) = false := by
          simp [he]
          exact fun h => hq h.symm
        simp [this, hq]
    · rw [if_neg he, lookupName_cons, lookupName_cons]
      by_cases heq : e.1 = q
      · have hq : ¬ q = k := fun h => he (heq.trans h)
        simp [heq, hq]
      · have : (e.1 == q) = false := by simp [heq]
        simp [this, ih]

theorem lookupName_insertName {α : Type} (m : List (String × α)) (k q : String) (v : α) :
    lookupName (insertName m k v) q = if q = k then some v else lookupName m q := by
  by_cases hq : q = k
  · subst hq; simp [insertName, lookupName_cons]
  · have : ¬ (k == q) := by simpa using fun h => hq h.symm
    simp [insertName, lookupName_cons, this, lookupName_eraseName, hq]

theorem containsName_iff {α : Type} (m : List (String × α)) (k : String) :
    containsName m k = true ↔ ∃ v, lookupName m k = some v := by
  cases h : lookupName m k <;> simp [containsName, h]

/-- `RenderTargetKey` from `src/render.rs`: the presented surface or an
offscreen texture handle. -/
inductive RenderTargetKey where
  | screen : RenderTargetKey
  | texture : TextureKey → RenderTargetKey
  deriving DecidableEq, Repr

/-- `ScheduleStep` from `src/render.rs`. -/
inductive ScheduleStep where
  | pass (render_pass : RenderPassName) (target : RenderTargetName) : ScheduleStep
  | process (subject : RenderTargetName) (shader : ShaderKey)
      (target : RenderTargetName) : ScheduleStep
  deriving DecidableEq, Repr

/-- `RenderSchedule` from `src/render.rs`. -/
structure RenderSchedule where
  steps : List ScheduleStep
  pass_names : List RenderPassName
  render_targets : List (RenderTargetName × RenderTargetKey)
  deriving DecidableEq, Repr

/-- `RenderSchedule::new`: seeds the target map with the implicit
`"screen"` entry. -/
def RenderSchedule.mk0 (render_targets : List (RenderTargetName × RenderTargetKey)) :
    RenderSchedule :=
  { steps := []
    pass_names := []
    render_targets := insertName render_targets "screen" RenderTargetKey.screen }

/-- `RenderSchedule::builder`. -/
def RenderSchedule.builder : RenderSchedule :=
  RenderSchedule.mk0 []

/-- `RenderSchedule::with_render_target`: registers or overwrites a named target. -/
def RenderSchedule.with_render_target (s : RenderSchedule) (name : String)
    (target : RenderTargetKey) : RenderSchedule :=
  { s with render_targets := insertName s.render_targets name target }

/-- `RenderSchedule::add_step`.  The source `panic!`s on a dangling target
name; the embedding returns `Except.error` there.  As in the source, a
`Pass` step records its pass name (if new) before the target check, but a
failing call discards the updated schedule (ownership of `self` is consumed
by the unwinding call in Rust, and the `error` branch drops it here). -/
def RenderSchedule.add_step (s : RenderSchedule) (step : ScheduleStep) :
    Except String RenderSchedule :=
  match step with
  | ScheduleStep.pass render_pass target =>
      let s1 : RenderSchedule :=
        if render_pass ∈ s.pass_names then s
        else { s with pass_names := s.pass_names ++ [render_pass] }
      if containsName s1.render_targets target then
        Except.ok { s1 with steps := s1.steps ++ [step] }
      else
        Except.error ("Render target not found: " ++ target)
  | ScheduleStep.process subject _ target =>
      if !containsName s.render_targets subject then
        Except.error ("Subject render target not found: " ++ subject)
      else if !containsName s.render_targets target then
        Except.error ("Target render target not found: " ++ target)
      else
        Except.ok { s with steps := s.steps ++ [step] }

/-- `RenderSchedule::add_pass`. -/
def RenderSchedule.add_pass (s : RenderSchedule) (pass_name : String)
    (target : String) : Except String RenderSchedule :=
  s.add_step (ScheduleStep.pass pass_name target)

/-- `RenderSchedule::add_process`. -/
def RenderSchedule.add_process (s : RenderSchedule) (subject : String)
    (shader : ShaderKey) (target : String) : Except String RenderSchedule :=
  s.add_step (ScheduleStep.process subject shader target)

inductive BlendMode where
  | none | premultiplied | alphaBlend | additive | multiply | subtract
  deriving DecidableEq, Repr

inductive FaceCullMode where
  | none | back | front
  deriving DecidableEq, Repr

inductive FilterMode where
  | nearest | linear
  deriving DecidableEq, Repr

inductive WrapMode where
  | repeat | mirroredRepeat | clamp
  deriving DecidableEq, Repr

/-- A `Rectangle<f32>` value (the type is referenced by `src/render.rs` but
defined outside the source tree); inert payload data, embedded over `Rat`. -/
structure Rectangle where
  x : Rat
  y : Rat
  w : Rat
  h : Rat
  deriving DecidableEq, Repr

/-- `cgmath::Vector2<f32>` payload. -/
structure Vec2 where
  x : Rat
  y : Rat
  deriving DecidableEq, Repr

/-- `cgmath::Vector3<f32>` payload. -/
structure Vec3 where
  x : Rat
  y : Rat
  z : Rat
  deriving DecidableEq, Repr

/-- `cgmath::Vector4<f32>` payload. -/
structure Vec4 where
  x : Rat
  y : Rat
  z : Rat
  w : Rat
  deriving DecidableEq, Repr

/-- `cgmath::Quaternion<f32>` payload. -/
structure Quat where
  s : Rat
  x : Rat
  y : Rat
  z : Rat
  deriving DecidableEq, Repr

/-- `Material` from `src/render.rs`. -/
structure Material where
  textures : List TextureKey
  shader : ShaderKey
  blend_mode : BlendMode
  cull_mode : FaceCullMode
  filter_mode : FilterMode
  wrap_mode : WrapMode × WrapMode
  deriving DecidableEq, Repr

/-- `Mapping` from `src/render.rs`: what geometry to draw. -/
inductive Mapping where
  | sprite (uv_rect : Rectangle) : Mapping
  | mesh (vertex_buffer : VertexBufferKey) (index_buffer : IndexBufferKey)
      (vertex_count : Nat) (index_count : Nat) : Mapping
  deriving DecidableEq, Repr

/-- `Transform` from `src/render.rs`.  `Transform::to_matrix` is not embedded:
it multiplies rotation matrices built from `f32` trigonometric functions,
which have no exact shallow embedding, and no claim reads it. -/
inductive Transform where
  | sprite (position : Vec2) (rotation : Rat) (scale : Vec2) (z_order : Rat) : Transform
  | mesh (position : Vec3) (rotation : Quat) (scale : Vec3) : Transform
  deriving DecidableEq, Repr

/-- `Transform::depth` from `src/render.rs`. -/
def Transform.depth : Transform → Rat
  | Transform.sprite _ _ _ z_order => z_order
  | Transform.mesh position _ _ => position.z

/-- Whether the `Mapping` variant and the `Transform` variant agree
(sprite with sprite, mesh with mesh); the pairing invariant of spec §3. -/
def variantsMatch : Mapping → Transform → Bool
  | Mapping.sprite _, Transform.sprite _ _ _ _ => true
  | Mapping.mesh _ _ _ _, Transform.mesh _ _ _ => true
  | _, _ => false

/-- `MaterialUniforms` from `src/render.rs`. -/
structure MaterialUniforms where
  tint : Vec4
  custom_params : List Rat
  deriving DecidableEq, Repr

/-- `RenderQueue` from `src/render.rs`: one queued submission.
`queue_depth` is an `f32` in the source, always set from `depth_counter`,
whose reachable values are exactly the naturals saturating at `2 ^ 24`
(see the file header); it is embedded as that natural number. -/
structure RenderQueue where
  material : MaterialKey
  mapping : Mapping
  transform : Transform
  uniforms : MaterialUniforms
  allow_transparency : Bool
  queue_depth : Nat
  deriving DecidableEq, Repr

/-- The `textures: RwLock<SlotMap<TextureKey, SQTexture>>` slot of
`AssetManager`: `next` is the key the next insertion returns, `live` the
live entries.  `SQTexture` itself is defined outside the source tree; the
model records the `size` each texture was created with (its only
claim-relevant datum). -/
structure TextureStore where
  next : Nat
  live : List (TextureKey × (Nat × Nat))
  deriving DecidableEq, Repr

/-- Slotmap insertion: returns the fresh key; fresh keys never collide with
live ones. -/
def TextureStore.insert (t : TextureStore) (size : Nat × Nat) :
    TextureStore × TextureKey :=
  ({ next := t.next + 1, live := t.live ++ [(t.next, size)] }, t.next)

/-- The claim-relevant slice of `AssetManager` (`src/assets.rs`).
`materials` is the set of live keys of the `materials` slotmap (the
`Material` payloads are read by no claim); the asset-name caches and the
vertex/index-buffer slotmaps carry no claim-relevant state and are omitted. -/
structure AssetManager where
  dynamic_render_targets : List (RenderTargetName × RenderTargetKey)
  textures : TextureStore
  materials : List MaterialKey
  deriving DecidableEq, Repr

/-- `AssetManager::new`. -/
def AssetManager.new : AssetManager :=
  { dynamic_render_targets := []
    textures := { next := 0, live := [] }
    materials := [] }

/-- `Renderer` from `src/render.rs` (the `RenderContext` GPU handles are
opaque capabilities with no claim-relevant state). -/
structure Renderer where
  schedule : RenderSchedule
  queues : List (RenderPassName × (List RenderQueue × List RenderQueue))
  depth_counter : Nat
  assets : AssetManager
  deriving DecidableEq, Repr

/-- `Renderer::new`. -/
def Renderer.new (assets : AssetManager) : Renderer :=
  { schedule := RenderSchedule.mk0 []
    queues := []
    depth_counter := 0
    assets := assets }

/-- The source statement `self.depth_counter += 1.0` on the `f32` counter,
exact on its reachable orbit: below `2 ^ 24` the sum is exactly
representable; at `2 ^ 24` the sum `2 ^ 24 + 1` rounds to nearest-even
`2 ^ 24`, so the counter saturates. -/
def f32succ (n : Nat) : Nat :=
  if n < 2 ^ 24 then n + 1 else n

/-- `Renderer::queue` from `src/render.rs`: build the `RenderQueue` entry
with the current counter, increment the counter, then push the entry into
the opaque or transparent bucket of the pass (creating the bucket pair on
first use). -/
def Renderer.queue (r : Renderer) (material : MaterialKey) (mapping : Mapping)
    (transform : Transform) (uniforms : MaterialUniforms)
    (pass_name : RenderPassName) (allow_transparency : Bool) : Renderer :=
  let q : RenderQueue :=
    { material := material
      mapping := mapping
      transform := transform
      uniforms := uniforms
      allow_transparency := allow_transparency
      queue_depth := r.depth_counter }
  let entry := (lookupName r.queues pass_name).getD ([], [])
  let entry := if allow_transparency
    then (entry.1, entry.2 ++ [q])
    else (entry.1 ++ [q], entry.2)
  { r with
      depth_counter := f32succ r.depth_counter
      queues := insertName r.queues pass_name entry }

/-- `Renderer::create_dynamic_render_target` from `src/render.rs`: return
the cached key for `name` if present, otherwise insert a fresh texture of
`size` into the texture slotmap, cache `name ↦ Texture(key)` and return it. -/
def Renderer.create_dynamic_render_target (r : Renderer) (size : Nat × Nat)
    (name : String) : Renderer × RenderTargetKey :=
  match lookupName r.assets.dynamic_render_targets name with
  | some existing => (r, existing)
  | none =>
      let inserted := r.assets.textures.insert size
      let render_target_key := RenderTargetKey.texture inserted.2
      ({ r with
          assets :=
            { r.assets with
                textures := inserted.1
                dynamic_render_targets :=
                  insertName r.assets.dynamic_render_targets name
                    render_target_key } },
        render_target_key)

/-- One emitted GPU command: a per-submission draw into a target, or a
full-screen post-process invocation (the spec's glossary keeps these
distinct: a post-process runs independently of drawable submissions). -/
inductive DrawEvent where
  | draw (target : RenderTargetName) (entry : RenderQueue) : DrawEvent
  | postProcess (subject : RenderTargetName) (shader : ShaderKey)
      (target : RenderTargetName) : DrawEvent
  deriving DecidableEq, Repr

/-- Whether a submission references a material handle that no longer lives
in the resource table (spec §4.2 / §7: a stale handle). -/
def staleMaterial (assets : AssetManager) (e : RenderQueue) : Bool :=
  !(assets.materials.contains e.material)

/-- Modelled from the spec: `Renderer::render_batched` is called from
`execute` (src/render.rs:302) but its definition is not in the source
tree.  Per spec §4.2 it draws every opaque submission of the pass into
`target`, skipping a submission whose material handle is stale without
aborting the frame (§4.2 failure semantics, §7).  The spec leaves the
opaque batch order an implementation choice; the model emits the list in
order, and no claim proved below depends on that choice. -/
def render_batched (assets : AssetManager) (target : RenderTargetName)
    (entries : List RenderQueue) : List DrawEvent :=
  (entries.filter (fun e => !staleMaterial assets e)).map
    (fun e => DrawEvent.draw target e)

/-- Modelled from the spec: `Renderer::render_transparent` is called from
`execute` (src/render.rs:303) but its definition is not in the source
tree.  Per spec §4.2 transparent submissions are drawn in increasing
`queue_depth` (insertion) order, skipping stale submissions; the queue
lists handed over by `execute` are built by push, so list order is
insertion order and the model draws the given list in order. -/
def render_transparent (assets : AssetManager) (target : RenderTargetName)
    (entries : List RenderQueue) : List DrawEvent :=
  (entries.filter (fun e => !staleMaterial assets e)).map
    (fun e => DrawEvent.draw target e)

/-- Modelled from the spec: `Renderer::execute_post_process` is called from
`execute` (src/render.rs:309) but its definition is not in the source
tree.  Per spec §4.2 a `Process` step executes one full-screen pass
applying `shader`, reading `subject` and writing `target`; the model emits
that as a single `postProcess` event.  (The source also looks up the
subject target and the shader pipeline before the call; those values are
not consumed by the call.) -/
def execute_post_process (subject : RenderTargetName) (shader : ShaderKey)
    (target : RenderTargetName) : List DrawEvent :=
  [DrawEvent.postProcess subject shader target]

/-- One iteration of the `for step in &self.schedule.steps.clone()` loop of
`Renderer::execute`: a `Pass` step drains the bucket pair of its pass name
(if any) and draws opaque then transparent; a `Process` step runs the
post-process. -/
def Renderer.executeStep (r : Renderer) (step : ScheduleStep) :
    Renderer × List DrawEvent :=
  match step with
  | ScheduleStep.pass render_pass target =>
      match lookupName r.queues render_pass with
      | some qs =>
          ({ r with queues := eraseName r.queues render_pass },
            render_batched r.assets target qs.1 ++
              render_transparent r.assets target qs.2)
      | none => (r, [])
  | ScheduleStep.process subject shader target =>
      (r, execute_post_process subject shader target)

/-- The loop of `Renderer::execute` over a list of steps, accumulating the
emitted events. -/
def executeSteps (r : Renderer) : List ScheduleStep → Renderer × List DrawEvent
  | [] => (r, [])
  | step :: rest =>
      let s1 := r.executeStep step
      let s2 := executeSteps s1.1 rest
      (s2.1, s1.2 ++ s2.2)

/-- `Renderer::execute` from `src/render.rs`: walk the schedule's steps in
order, then clear the whole queue map and reset the depth counter to zero. -/
def Renderer.execute (r : Renderer) : Renderer × List DrawEvent :=
  let s := executeSteps r r.schedule.steps
  ({ s.1 with queues := [], depth_counter := 0 }, s.2)

/-- The arguments of one `Renderer::queue` call. -/
structure QueueCall where
  material : MaterialKey
  mapping : Mapping
  transform : Transform
  uniforms : MaterialUniforms
  pass_name : RenderPassName
  allow_transparency : Bool
  deriving DecidableEq, Repr

/-- Apply one `QueueCall`. -/
def Renderer.queueCall (r : Renderer) (c : QueueCall) : Renderer :=
  r.queue c.material c.mapping c.transform c.uniforms c.pass_name
    c.allow_transparency

/-- Apply a frame's worth of `queue()` calls in order. -/
def applyCalls (r : Renderer) : List QueueCall → Renderer
  | [] => r
  | c :: cs => applyCalls (r.queueCall c) cs

/-- The `RenderQueue` entry a call produces when the counter reads `d`. -/
def mkEntry (c : QueueCall) (d : Nat) : RenderQueue :=
  { material := c.material
    mapping := c.mapping
    transform := c.transform
    uniforms := c.uniforms
    allow_transparency := c.allow_transparency
    queue_depth := d }

/-- Tag each call of a sequence with the depth-counter value it observes,
starting from counter value `d`. -/
def taggedFrom (d : Nat) : List QueueCall → List (QueueCall × Nat)
  | [] => []
  | c :: cs => (c, d) :: taggedFrom (f32succ d) cs

/-- The (opaque, transparent) bucket pair a pass name currently holds
(`([], [])` when the pass has no bucket). -/
def queuedPair (r : Renderer) (p : RenderPassName) :
    List RenderQueue × List RenderQueue :=
  (lookupName r.queues p).getD ([], [])

/-- The opaque entries a tagged call sequence contributes to pass `p`. -/
def opFor (p : RenderPassName) (tc : List (QueueCall × Nat)) : List RenderQueue :=
  (tc.filter (fun e => e.1.pass_name == p && !e.1.allow_transparency)).map
    (fun e => mkEntry e.1 e.2)

/-- The transparent entries a tagged call sequence contributes to pass `p`. -/
def trFor (p : RenderPassName) (tc : List (QueueCall × Nat)) : List RenderQueue :=
  (tc.filter (fun e => e.1.pass_name == p && e.1.allow_transparency)).map
    (fun e => mkEntry e.1 e.2)

theorem queuedPair_of_nil (r : Renderer) (p : RenderPassName) (h : r.queues = []) :
    queuedPair r p = ([], []) := by
  simp [queuedPair, h, lookupName]

theorem queueCall_depth (r : Renderer) (c : QueueCall) :
    (r.queueCall c).depth_counter = f32succ r.depth_counter := rfl

theorem queueCall_schedule (r : Renderer) (c : QueueCall) :
    (r.queueCall c).schedule = r.schedule := rfl

theorem queueCall_assets (r : Renderer) (c : QueueCall) :
    (r.queueCall c).assets = r.assets := rfl

theorem queuedPair_queueCall (r : Renderer) (c : QueueCall) (p : RenderPassName) :
    queuedPair (r.queueCall c) p =
      if c.pass_name = p then
        (if c.allow_transparency then
          ((queuedPair r p).1, (queuedPair r p).2 ++ [mkEntry c r.depth_counter])
        else
          ((queuedPair r p).1 ++ [mkEntry c r.depth_counter], (queuedPair r p).2))
      else queuedPair r p := by
  show queuedPair (r.queue c.material c.mapping c.transform c.uniforms
      c.pass_name c.allow_transparency) p = _
  unfold Renderer.queue queuedPair mkEntry
  rw [lookupName_insertName]
  by_cases hp : c.pass_name = p
  · subst hp
    rw [if_pos rfl, if_pos rfl]
    cases hb : c.allow_transparency <;> simp
  · rw [if_neg (fun h => hp h.symm), if_neg hp]

theorem applyCalls_append (r : Renderer) (cs ds : List QueueCall) :
    applyCalls r (cs ++ ds) = applyCalls (applyCalls r cs) ds := by
  induction cs generalizing r with
  | nil => rfl
  | cons c cs ih => simp [applyCalls, ih]

theorem applyCalls_schedule (r : Renderer) (cs : List QueueCall) :
    (applyCalls r cs).schedule = r.schedule := by
  induction cs generalizing r with
  | nil => rfl
  | cons c cs ih => rw [applyCalls, ih, queueCall_schedule]

theorem applyCalls_assets (r : Renderer) (cs : List QueueCall) :
    (applyCalls r cs).assets = r.assets := by
  induction cs generalizing r with
  | nil => rfl
  | cons c cs ih => rw [applyCalls, ih, queueCall_assets]

theorem applyCalls_depth (r : Renderer) (cs : List QueueCall) :
    (applyCalls r cs).depth_counter = f32succ^[cs.length] r.depth_counter := by
  induction cs generalizing r with
  | nil => rfl
  | cons c cs ih =>
    rw [applyCalls, ih, queueCall_depth, List.length_cons,
      Function.iterate_succ_apply]

theorem f32succ_iterate_zero (n : Nat) :
    f32succ^[n] 0 = min n (2 ^ 24) := by
  induction n with
  | zero => simp
  | succ n ih =>
    rw [Function.iterate_succ_apply', ih, f32succ]
    split <;> omega

theorem taggedFrom_cons (d : Nat) (c : QueueCall) (cs : List QueueCall) :
    taggedFrom d (c :: cs) = (c, d) :: taggedFrom (f32succ d) cs := rfl

theorem taggedFrom_append (d : Nat) (cs ds : List QueueCall) :
    taggedFrom d (cs ++ ds) =
      taggedFrom d cs ++ taggedFrom (f32succ^[cs.length] d) ds := by
  induction cs generalizing d with
  | nil => rfl
  | cons c cs ih =>
    rw [List.cons_append, taggedFrom_cons, taggedFrom_cons, ih,
      List.length_cons, Function.iterate_succ_apply, List.cons_append]

theorem opFor_cons (p : RenderPassName) (e : QueueCall × Nat)
    (tc : List (QueueCall × Nat)) :
    opFor p (e :: tc) =
      if e.1.pass_name = p ∧ e.1.allow_transparency = false then
        mkEntry e.1 e.2 :: opFor p tc
      else opFor p tc := by
  by_cases h1 : e.1.pass_name = p <;> by_cases h2 : e.1.allow_transparency <;>
    simp [opFor, List.filter_cons, h1, h2]

theorem trFor_cons (p : RenderPassName) (e : QueueCall × Nat)
    (tc : List (QueueCall × Nat)) :
    trFor p (e :: tc) =
      if e.1.pass_name = p ∧ e.1.allow_transparency = true then
        mkEntry e.1 e.2 :: trFor p tc
      else trFor p tc := by
  by_cases h1 : e.1.pass_name = p <;> by_cases h2 : e.1.allow_transparency <;>
    simp [trFor, List.filter_cons, h1, h2]

theorem queuedPair_applyCalls (cs : List QueueCall) (r : Renderer)
    (p : RenderPassName) :
    queuedPair (applyCalls r cs) p =
      ((queuedPair r p).1 ++ opFor p (taggedFrom r.depth_counter cs),
        (queuedPair r p).2 ++ trFor p (taggedFrom r.depth_counter cs)) := by
  induction cs generalizing r with
  | nil => simp [applyCalls, taggedFrom, opFor, trFor]
  | cons c cs ih =>
    rw [applyCalls, ih, queueCall_depth, taggedFrom_cons, opFor_cons,
      trFor_cons, queuedPair_queueCall]
    by_cases hp : c.pass_name = p
    · cases hb : c.allow_transparency <;> simp [hp, hb]
    · simp [hp]

/-- Whether an emitted command is a per-submission draw. -/
def DrawEvent.isDraw : DrawEvent → Bool
  | DrawEvent.draw _ _ => true
  | DrawEvent.postProcess _ _ _ => false

theorem eraseName_comm {α : Type} (m : List (String × α)) (a b : String) :
    eraseName (eraseName m a) b = eraseName (eraseName m b) a := by
  simp only [eraseName, List.filter_filter]
  exact List.filter_congr (fun e _ => by rw [Bool.and_comm])

theorem executeSteps_cons (r : Renderer) (step : ScheduleStep)
    (rest : List ScheduleStep) :
    executeSteps r (step :: rest) =
      ((executeSteps (r.executeStep step).1 rest).1,
        (r.executeStep step).2 ++ (executeSteps (r.executeStep step).1 rest).2) :=
  rfl

theorem executeStep_assets (r : Renderer) (step : ScheduleStep) :
    (r.executeStep step).1.assets = r.assets := by
  cases step with
  | pass rp tgt =>
      cases h : lookupName r.queues rp <;> simp [Renderer.executeStep, h]
  | process sub sh tgt => rfl

theorem executeStep_schedule (r : Renderer) (step : ScheduleStep) :
    (r.executeStep step).1.schedule = r.schedule := by
  cases step with
  | pass rp tgt =>
      cases h : lookupName r.queues rp <;> simp [Renderer.executeStep, h]
  | process sub sh tgt => rfl

theorem executeSteps_assets (steps : List ScheduleStep) (r : Renderer) :
    (executeSteps r steps).1.assets = r.assets := by
  induction steps generalizing r with
  | nil => rfl
  | cons step rest ih => rw [executeSteps_cons]; exact (ih _).trans (executeStep_assets r step)

theorem executeStep_lookup_pass_ne (r : Renderer) (q : RenderPassName)
    (tgt : RenderTargetName) (p : RenderPassName) (hne : q ≠ p) :
    lookupName (r.executeStep (ScheduleStep.pass q tgt)).1.queues p =
      lookupName r.queues p := by
  cases h : lookupName r.queues q with
  | none => simp [Renderer.executeStep, h]
  | some qs =>
      simp only [Renderer.executeStep, h]
      rw [lookupName_eraseName, if_neg (fun hh : p = q => hne hh.symm)]

theorem executeSteps_lookup (steps : List ScheduleStep) (r : Renderer)
    (p : RenderPassName) (h : ∀ tgt, ScheduleStep.pass p tgt ∉ steps) :
    lookupName (executeSteps r steps).1.queues p = lookupName r.queues p := by
  induction steps generalizing r with
  | nil => rfl
  | cons step rest ih =>
      rw [executeSteps_cons]
      have hrest : ∀ tgt, ScheduleStep.pass p tgt ∉ rest := fun tgt hm =>
        h tgt (List.mem_cons_of_mem _ hm)
      refine (ih _ hrest).trans ?_
      cases step with
      | pass q tgt =>
          refine executeStep_lookup_pass_ne r q tgt p (fun hq => ?_)
          exact h tgt (by rw [hq]; exact List.mem_cons_self _ _)
      | process sub sh tgt => rfl

theorem executeStep_erase (r : Renderer) (p : RenderPassName)
    (step : ScheduleStep) (h : ∀ tgt, step ≠ ScheduleStep.pass p tgt) :
    Renderer.executeStep { r with queues := eraseName r.queues p } step =
      ({ (r.executeStep step).1 with
          queues := eraseName (r.executeStep step).1.queues p },
        (r.executeStep step).2) := by
  cases step with
  | process sub sh tgt => rfl
  | pass q tgt =>
      have hq : q ≠ p := fun hh => h tgt (by rw [hh])
      have hl : lookupName (eraseName r.queues p) q = lookupName r.queues q := by
        rw [lookupName_eraseName, if_neg hq]
      cases hres : lookupName r.queues q with
      | none => simp [Renderer.executeStep, hl, hres]
      | some qs =>
          simp only [Renderer.executeStep, hl, hres]
          rw [eraseName_comm]

theorem executeSteps_erase (steps : List ScheduleStep) (r : Renderer)
    (p : RenderPassName) (h : ∀ tgt, ScheduleStep.pass p tgt ∉ steps) :
    executeSteps { r with queues := eraseName r.queues p } steps =
      ({ (executeSteps r steps).1 with
          queues := eraseName (executeSteps r steps).1.queues p },
        (executeSteps r steps).2) := by
  induction steps generalizing r with
  | nil => rfl
  | cons step rest ih =>
      have hstep : ∀ tgt, step ≠ ScheduleStep.pass p tgt := fun tgt hh =>
        h tgt (by rw [← hh]; exact List.mem_cons_self _ _)
      have hrest : ∀ tgt, ScheduleStep.pass p tgt ∉ rest := fun tgt hm =>
        h tgt (List.mem_cons_of_mem _ hm)
      rw [executeSteps_cons, executeSteps_cons, executeStep_erase r p step hstep,
        ih _ hrest]

theorem executeSteps_of_queues_nil (steps : List ScheduleStep) (r : Renderer)
    (h : r.queues = []) :
    (executeSteps r steps).1.queues = [] ∧
      ∀ e ∈ (executeSteps r steps).2, e.isDraw = false := by
  induction steps generalizing r with
  | nil => exact ⟨h, by intro e he; simp [executeSteps] at he⟩
  | cons step rest ih =>
      rw [executeSteps_cons]
      have hstep : (r.executeStep step).1.queues = [] ∧
          ∀ e ∈ (r.executeStep step).2, e.isDraw = false := by
        cases step with
        | pass q tgt => simp [Renderer.executeStep, h, lookupName]
        | process sub sh tgt =>
            exact ⟨h, by intro e he; simp [Renderer.executeStep,
              execute_post_process] at he; simp [he, DrawEvent.isDraw]⟩
      obtain ⟨h1, h2⟩ := ih _ hstep.1
      refine ⟨h1, fun e he => ?_⟩
      rcases List.mem_append.mp he with he | he
      · exact hstep.2 e he
      · exact h2 e he

theorem f32succ_ge (d : Nat) : d ≤ f32succ d := by
  rw [f32succ]; split <;> omega

theorem taggedFrom_snd_ge (cs : List QueueCall) (d : Nat) :
    ∀ e ∈ taggedFrom d cs, d ≤ e.2 := by
  induction cs generalizing d with
  | nil => intro e he; simp [taggedFrom] at he
  | cons c cs ih =>
      intro e he
      rw [taggedFrom_cons] at he
      rcases List.mem_cons.mp he with he | he
      · rw [he]
      · exact le_trans (f32succ_ge d) (ih (f32succ d) e he)

theorem taggedFrom_pairwise (cs : List QueueCall) (d : Nat)
    (h : d + cs.length ≤ 2 ^ 24 + 1) :
    List.Pairwise (· < ·) ((taggedFrom d cs).map Prod.snd) := by
  induction cs generalizing d with
  | nil => simp [taggedFrom]
  | cons c cs ih =>
      rw [taggedFrom_cons, List.map_cons]
      refine List.pairwise_cons.mpr ⟨?_, ?_⟩
      · intro x hx
        rcases List.mem_map.mp hx with ⟨e, he, hex⟩
        cases cs with
        | nil => simp [taggedFrom] at he
        | cons c2 cs2 =>
            have hd : d < 2 ^ 24 := by
              rw [List.length_cons, List.length_cons] at h; omega
            have hf : f32succ d = d + 1 := by rw [f32succ, if_pos hd]
            have := taggedFrom_snd_ge (c2 :: cs2) (f32succ d) e he
            rw [hf] at this
            omega
      · refine ih (f32succ d) ?_
        have := f32succ_ge d
        rw [List.length_cons] at h
        have hle : f32succ d ≤ d + 1 := by rw [f32succ]; split <;> omega
        omega

theorem taggedFrom_snd_exact (cs : List QueueCall) (d : Nat)
    (h : d + cs.length ≤ 2 ^ 24) :
    (taggedFrom d cs).map Prod.snd = (List.range cs.length).map (fun i => i + d) := by
  induction cs generalizing d with
  | nil => rfl
  | cons c cs ih =>
      have hd : d < 2 ^ 24 := by rw [List.length_cons] at h; omega
      have hf : f32succ d = d + 1 := by rw [f32succ, if_pos hd]
      rw [taggedFrom_cons, List.map_cons, hf,
        ih (d + 1) (by rw [List.length_cons] at h; omega),
        List.length_cons, List.range_succ_eq_map, List.map_cons, List.map_map]
      have harg : ((fun i => i + d) ∘ Nat.succ) = fun i : Nat => i + (d + 1) :=
        funext fun i => by simp [Function.comp]; omega
      rw [harg, Nat.zero_add]

theorem taggedFrom_snd_range (cs : List QueueCall) (h : cs.length ≤ 2 ^ 24) :
    (taggedFrom 0 cs).map Prod.snd = List.range cs.length := by
  rw [taggedFrom_snd_exact cs 0 (by omega)]
  simp

/-- Whether a call's material handle is stale (absent from the live
material table). -/
def staleCall (assets : AssetManager) (c : QueueCall) : Bool :=
  !(assets.materials.contains c.material)

theorem staleMaterial_mkEntry (assets : AssetManager) (c : QueueCall) (d : Nat) :
    staleMaterial assets (mkEntry c d) = staleCall assets c := rfl

theorem trFor_depths (p : RenderPassName) (tc : List (QueueCall × Nat)) :
    (trFor p tc).map RenderQueue.queue_depth =
      (tc.filter (fun e => e.1.pass_name == p && e.1.allow_transparency)).map
        Prod.snd := by
  rw [trFor, List.map_map]
  rfl

theorem trFor_pairwise (p : RenderPassName) (calls : List QueueCall)
    (h : calls.length ≤ 2 ^ 24 + 1) :
    List.Pairwise (fun a b => a.queue_depth < b.queue_depth)
      (trFor p (taggedFrom 0 calls)) := by
  rw [← List.pairwise_map (f := RenderQueue.queue_depth), trFor_depths]
  refine List.Pairwise.sublist ?_ (taggedFrom_pairwise calls 0 (by omega))
  exact List.Sublist.map _ (List.filter_sublist _)

theorem length_opFor_add_trFor (p : RenderPassName) (tc : List (QueueCall × Nat)) :
    (opFor p tc).length + (trFor p tc).length =
      (tc.filter (fun e => e.1.pass_name == p)).length := by
  induction tc with
  | nil => rfl
  | cons e tc ih =>
      rw [opFor_cons, trFor_cons, List.filter_cons]
      by_cases hp : e.1.pass_name = p
      · cases hb : e.1.allow_transparency <;>
          simp [hp, hb] <;> omega
      · simp [hp, ih]

theorem length_drawn_filter (p : RenderPassName) (assets : AssetManager)
    (tc : List (QueueCall × Nat)) :
    ((opFor p tc).filter (fun e => !staleMaterial assets e)).length +
      ((trFor p tc).filter (fun e => !staleMaterial assets e)).length =
      (tc.filter (fun e =>
        e.1.pass_name == p && !staleCall assets e.1)).length := by
  induction tc with
  | nil => rfl
  | cons e tc ih =>
      rw [opFor_cons, trFor_cons, List.filter_cons]
      by_cases hp : e.1.pass_name = p
      · cases hb : e.1.allow_transparency <;>
          cases hs : staleCall assets e.1 <;>
          simp [hp, hb, List.filter_cons, staleMaterial_mkEntry, hs] <;>
          omega
      · simp [hp, ih]

theorem taggedFrom_filter_length (q : QueueCall → Bool) (cs : List QueueCall)
    (d : Nat) :
    ((taggedFrom d cs).filter (fun e => q e.1)).length = (cs.filter q).length := by
  induction cs generalizing d with
  | nil => rfl
  | cons c cs ih =>
      rw [taggedFrom_cons, List.filter_cons, List.filter_cons]
      cases hq : q c <;> simp [ih]

theorem executeSteps_append (r : Renderer) (l1 l2 : List ScheduleStep) :
    executeSteps r (l1 ++ l2) =
      ((executeSteps (executeSteps r l1).1 l2).1,
        (executeSteps r l1).2 ++ (executeSteps (executeSteps r l1).1 l2).2) := by
  induction l1 generalizing r with
  | nil => rfl
  | cons s l1 ih =>
      rw [List.cons_append, executeSteps_cons, executeSteps_cons, ih]
      simp [List.append_assoc]

theorem queuedPair_fresh (r : Renderer) (calls : List QueueCall)
    (p : RenderPassName) (hq : r.queues = []) (hd : r.depth_counter = 0) :
    queuedPair (applyCalls r calls) p =
      (opFor p (taggedFrom 0 calls), trFor p (taggedFrom 0 calls)) := by
  rw [queuedPair_applyCalls, queuedPair_of_nil r p hq, hd]
  simp

theorem passStep_events (r : Renderer) (calls : List QueueCall)
    (steps1 : List ScheduleStep) (p : RenderPassName) (tgt : RenderTargetName)
    (hq : r.queues = []) (hd : r.depth_counter = 0)
    (hfirst : ∀ t2, ScheduleStep.pass p t2 ∉ steps1) :
    ((executeSteps (applyCalls r calls) steps1).1.executeStep
        (ScheduleStep.pass p tgt)).2 =
      render_batched r.assets tgt (opFor p (taggedFrom 0 calls)) ++
        render_transparent r.assets tgt (trFor p (taggedFrom 0 calls)) := by
  have hpair := queuedPair_fresh r calls p hq hd
  have hlook := executeSteps_lookup steps1 (applyCalls r calls) p hfirst
  have hassets : (executeSteps (applyCalls r calls) steps1).1.assets = r.assets :=
    (executeSteps_assets _ _).trans (applyCalls_assets _ _)
  cases hres : lookupName (applyCalls r calls).queues p with
  | some qs =>
      have hqs : qs = (opFor p (taggedFrom 0 calls), trFor p (taggedFrom 0 calls)) := by
        rw [← hpair]; simp [queuedPair, hres]
      simp [Renderer.executeStep, hlook, hres, hqs, hassets]
  | none =>
      have h0 : (opFor p (taggedFrom 0 calls), trFor p (taggedFrom 0 calls)) =
          (([] : List RenderQueue), ([] : List RenderQueue)) := by
        rw [← hpair]; simp [queuedPair, hres]
      have h1 : opFor p (taggedFrom 0 calls) = [] := congrArg Prod.fst h0
      have h2 : trFor p (taggedFrom 0 calls) = [] := congrArg Prod.snd h0
      simp [Renderer.executeStep, hlook, hres, h1, h2, render_batched,
        render_transparent]

theorem add_pass_error_iff (s : RenderSchedule) (pn tgt : String) :
    (∃ e, s.add_pass pn tgt = Except.error e) ↔
      containsName s.render_targets tgt = false := by
  unfold RenderSchedule.add_pass RenderSchedule.add_step
  by_cases hm : pn ∈ s.pass_names <;>
    cases hc : containsName s.render_targets tgt <;> simp [hm, hc]

theorem add_pass_ok_eq (s : RenderSchedule) (pn tgt : String)
    (hc : containsName s.render_targets tgt = true) :
    s.add_pass pn tgt = Except.ok
      { steps := s.steps ++ [ScheduleStep.pass pn tgt]
        pass_names :=
          if pn ∈ s.pass_names then s.pass_names else s.pass_names ++ [pn]
        render_targets := s.render_targets } := by
  unfold RenderSchedule.add_pass RenderSchedule.add_step
  by_cases hm : pn ∈ s.pass_names <;> simp [hm, hc]

theorem add_process_error_iff (s : RenderSchedule) (sub tgt : String)
    (sh : ShaderKey) :
    (∃ e, s.add_process sub sh tgt = Except.error e) ↔
      (containsName s.render_targets sub = false ∨
        containsName s.render_targets tgt = false) := by
  unfold RenderSchedule.add_process RenderSchedule.add_step
  cases hs : containsName s.render_targets sub <;>
    cases hc : containsName s.render_targets tgt <;> simp [hs, hc]

theorem add_process_ok_eq (s : RenderSchedule) (sub tgt : String) (sh : ShaderKey)
    (hs : containsName s.render_targets sub = true)
    (hc : containsName s.render_targets tgt = true) :
    s.add_process sub sh tgt = Except.ok
      { s with steps := s.steps ++ [ScheduleStep.process sub sh tgt] } := by
  unfold RenderSchedule.add_process RenderSchedule.add_step
  simp [hs, hc]

theorem containsName_with_render_target (s : RenderSchedule) (name : String)
    (k : RenderTargetKey) :
    containsName (s.with_render_target name k).render_targets name = true := by
  simp [RenderSchedule.with_render_target, containsName, lookupName_insertName]

theorem add_step_ok_render_targets (s : RenderSchedule) (step : ScheduleStep)
    (s1 : RenderSchedule) (h : s.add_step step = Except.ok s1) :
    s1.render_targets = s.render_targets := by
  unfold RenderSchedule.add_step at h
  cases step with
  | pass pn tgt =>
      by_cases hm : pn ∈ s.pass_names <;>
        cases hc : containsName s.render_targets tgt <;>
        simp [hm, hc] at h <;> rw [← h]
  | process sub sh tgt =>
      cases hs : containsName s.render_targets sub <;>
        cases hc : containsName s.render_targets tgt <;>
        simp [hs, hc] at h
      rw [← h]

/-- One invocation of the public schedule-construction interface. -/
inductive BuildOp where
  | withTarget (name : String) (key : RenderTargetKey) : BuildOp
  | addPass (pass_name : String) (target : String) : BuildOp
  | addProcess (subject : String) (shader : ShaderKey) (target : String) : BuildOp
  deriving DecidableEq, Repr

/-- Apply one builder call. -/
def applyOp (s : RenderSchedule) : BuildOp → Except String RenderSchedule
  | BuildOp.withTarget name key => Except.ok (s.with_render_target name key)
  | BuildOp.addPass pn tgt => s.add_pass pn tgt
  | BuildOp.addProcess sub sh tgt => s.add_process sub sh tgt

/-- Run a sequence of builder calls from a starting schedule; the first
fatal construction failure aborts the chain. -/
def buildFrom (s : RenderSchedule) : List BuildOp → Except String RenderSchedule
  | [] => Except.ok s
  | op :: ops =>
      match applyOp s op with
      | Except.ok s1 => buildFrom s1 ops
      | Except.error e => Except.error e

theorem applyOp_contains_screen (s : RenderSchedule) (op : BuildOp)
    (s1 : RenderSchedule) (h : applyOp s op = Except.ok s1)
    (hc : containsName s.render_targets "screen" = true) :
    containsName s1.render_targets "screen" = true := by
  cases op with
  | withTarget name key =>
      simp [applyOp] at h
      rw [← h]
      by_cases hn : ("screen" : String) = name <;>
        simp [RenderSchedule.with_render_target, containsName,
          lookupName_insertName, hn] at hc ⊢
      exact hc
  | addPass pn tgt =>
      rw [add_step_ok_render_targets s (ScheduleStep.pass pn tgt) s1 h]
      exact hc
  | addProcess sub sh tgt =>
      rw [add_step_ok_render_targets s (ScheduleStep.process sub sh tgt) s1 h]
      exact hc

theorem applyOp_lookup_screen (s : RenderSchedule) (op : BuildOp)
    (s1 : RenderSchedule) (h : applyOp s op = Except.ok s1)
    (hno : ∀ k, op ≠ BuildOp.withTarget "screen" k) :
    lookupName s1.render_targets "screen" =
      lookupName s.render_targets "screen" := by
  cases op with
  | withTarget name key =>
      simp [applyOp] at h
      rw [← h]
      have hn : ("screen" : String) ≠ name := by
        intro hh
        exact hno key (by rw [hh])
      simp [RenderSchedule.with_render_target, lookupName_insertName, hn]
  | addPass pn tgt =>
      rw [add_step_ok_render_targets s (ScheduleStep.pass pn tgt) s1 h]
  | addProcess sub sh tgt =>
      rw [add_step_ok_render_targets s (ScheduleStep.process sub sh tgt) s1 h]

theorem buildFrom_contains_screen (ops : List BuildOp) (s s1 : RenderSchedule)
    (h : buildFrom s ops = Except.ok s1)
    (hc : containsName s.render_targets "screen" = true) :
    containsName s1.render_targets "screen" = true := by
  induction ops generalizing s with
  | nil =>
      simp [buildFrom] at h
      rw [← h]; exact hc
  | cons op ops ih =>
      rw [buildFrom] at h
      cases happ : applyOp s op with
      | error e => rw [happ] at h; simp at h
      | ok smid =>
          rw [happ] at h
          exact ih smid h (applyOp_contains_screen s op smid happ hc)

theorem buildFrom_lookup_screen (ops : List BuildOp) (s s1 : RenderSchedule)
    (h : buildFrom s ops = Except.ok s1)
    (hno : ∀ k, BuildOp.withTarget "screen" k ∉ ops) :
    lookupName s1.render_targets "screen" =
      lookupName s.render_targets "screen" := by
  induction ops generalizing s with
  | nil =>
      simp [buildFrom] at h
      rw [← h]
  | cons op ops ih =>
      rw [buildFrom] at h
      cases happ : applyOp s op with
      | error e => rw [happ] at h; simp at h
      | ok smid =>
          rw [happ] at h
          have hhead : ∀ k, op ≠ BuildOp.withTarget "screen" k := by
            intro k hk
            exact hno k (by rw [← hk]; exact List.mem_cons_self _ _)
          have htail : ∀ k, BuildOp.withTarget "screen" k ∉ ops := fun k hm =>
            hno k (List.mem_cons_of_mem _ hm)
          rw [ih smid h htail]
          exact applyOp_lookup_screen s op smid happ hhead

/-- Well-formedness of the dynamic-render-target cache: every cached key is
an offscreen texture key the texture slotmap has already handed out.  It
holds for a freshly built `Renderer` and is preserved by
`create_dynamic_render_target`, the cache's only writer in the source. -/
def TargetsWF (r : Renderer) : Prop :=
  ∀ n k, lookupName r.assets.dynamic_render_targets n = some k →
    ∃ t, k = RenderTargetKey.texture t ∧ t < r.assets.textures.next

theorem TargetsWF_new : TargetsWF (Renderer.new AssetManager.new) := by
  intro n k h
  simp [Renderer.new, AssetManager.new, lookupName] at h

theorem TargetsWF_create (r : Renderer) (size : Nat × Nat) (name : String)
    (h : TargetsWF r) :
    TargetsWF (r.create_dynamic_render_target size name).1 := by
  intro n k hl
  cases hres : lookupName r.assets.dynamic_render_targets name with
  | some ex =>
      simp only [Renderer.create_dynamic_render_target, hres] at hl ⊢
      exact h n k hl
  | none =>
      have hstate :
          (r.create_dynamic_render_target size name).1.assets.textures.next =
            r.assets.textures.next + 1 := by
        simp [Renderer.create_dynamic_render_target, hres, TextureStore.insert]
      have hdyn :
          (r.create_dynamic_render_target size name).1.assets.dynamic_render_targets =
            insertName r.assets.dynamic_render_targets name
              (RenderTargetKey.texture r.assets.textures.next) := by
        simp [Renderer.create_dynamic_render_target, hres, TextureStore.insert]
      rw [hdyn, lookupName_insertName] at hl
      rw [hstate]
      by_cases hn : n = name
      · rw [if_pos hn] at hl
        exact ⟨r.assets.textures.next, (Option.some.inj hl).symm,
          Nat.lt_succ_self _⟩
      · rw [if_neg hn] at hl
        obtain ⟨t, ht, hlt⟩ := h n k hl
        exact ⟨t, ht, Nat.lt_succ_of_lt hlt⟩

theorem execute_events (r : Renderer) :
    (Renderer.execute r).2 = (executeSteps r r.schedule.steps).2 := rfl

theorem execute_queues (r : Renderer) :
    (Renderer.execute r).1.queues = [] := rfl

theorem execute_depth (r : Renderer) :
    (Renderer.execute r).1.depth_counter = 0 := rfl

/-- Sample uniforms for concrete instances. -/
def w_uniforms : MaterialUniforms := { tint := ⟨1, 1, 1, 1⟩, custom_params := [] }

/-- Sample UV rectangle. -/
def w_rect : Rectangle := ⟨0, 0, 1, 1⟩

/-- Sample sprite transform. -/
def w_sprite_tf : Transform := Transform.sprite ⟨0, 0⟩ 0 ⟨1, 1⟩ 0

/-- Sample mesh transform. -/
def w_mesh_tf : Transform := Transform.mesh ⟨0, 0, 0⟩ ⟨1, 0, 0, 0⟩ ⟨1, 1, 1⟩

/-- A sample sprite submission to pass `pass`, transparent iff `tr`. -/
def w_call (pass : String) (tr : Bool) : QueueCall :=
  { material := 0
    mapping := Mapping.sprite w_rect
    transform := w_sprite_tf
    uniforms := w_uniforms
    pass_name := pass
    allow_transparency := tr }

/-- The schedule built by `builder().add_pass("main", "screen")`. -/
def w_schedule : RenderSchedule :=
  { steps := [ScheduleStep.pass "main" "screen"]
    pass_names := ["main"]
    render_targets := [("screen", RenderTargetKey.screen)] }

theorem w_schedule_built :
    RenderSchedule.builder.add_pass "main" "screen" = Except.ok w_schedule := by
  rfl

/-- A fresh renderer holding `w_schedule`; material key 0 is live. -/
def w_renderer : Renderer :=
  { schedule := w_schedule
    queues := []
    depth_counter := 0
    assets :=
      { dynamic_render_targets := []
        textures := ⟨0, []⟩
        materials := [0] } }

theorem trFor_append (p : RenderPassName) (t1 t2 : List (QueueCall × Nat)) :
    trFor p (t1 ++ t2) = trFor p t1 ++ trFor p t2 := by
  simp [trFor, List.filter_append]

theorem f32succ_sat : f32succ (2 ^ 24) = 2 ^ 24 := by
  rw [f32succ, if_neg (lt_irrefl _)]

theorem replicate_tr_shape :
    trFor "main" (taggedFrom 0 (List.replicate (2 ^ 24 + 2) (w_call "main" true))) =
      trFor "main" (taggedFrom 0 (List.replicate (2 ^ 24) (w_call "main" true))) ++
        [mkEntry (w_call "main" true) (2 ^ 24),
          mkEntry (w_call "main" true) (2 ^ 24)] := by
  rw [List.replicate_add, taggedFrom_append, List.length_replicate,
    f32succ_iterate_zero, Nat.min_self, trFor_append]
  congr 1

/-- C2: a step addition fails (the source `panic!`, embedded as
`Except.error`) exactly when a referenced target name is unregistered at
that moment — the pass target for `add_pass`, the subject or target for
`add_process`; when all referenced names are registered, the step is
appended and construction succeeds.  The failure is raised by the builder
call itself, before any draw call can run. -/
theorem claim_C2 (s : RenderSchedule) (pn tgt sub : String) (sh : ShaderKey) :
    ((∃ e, s.add_pass pn tgt = Except.error e) ↔
      containsName s.render_targets tgt = false)
    ∧ ((∃ e, s.add_process sub sh tgt = Except.error e) ↔
      (containsName s.render_targets sub = false ∨
        containsName s.render_targets tgt = false))
    ∧ (containsName s.render_targets tgt = true →
      s.add_pass pn tgt = Except.ok
        { steps := s.steps ++ [ScheduleStep.pass pn tgt]
          pass_names :=
            if pn ∈ s.pass_names then s.pass_names else s.pass_names ++ [pn]
          render_targets := s.render_targets })
    ∧ (containsName s.render_targets sub = true →
      containsName s.render_targets tgt = true →
      s.add_process sub sh tgt = Except.ok
        { s with steps := s.steps ++ [ScheduleStep.process sub sh tgt] }) :=
  ⟨add_pass_error_iff s pn tgt, add_process_error_iff s sub tgt sh,
    fun hc => add_pass_ok_eq s pn tgt hc,
    fun hs hc => add_process_ok_eq s sub tgt sh hs hc⟩

theorem claim_C2_witness :
    containsName w_schedule.render_targets "screen" = true ∧
      w_schedule.add_pass "post" "screen" = Except.ok
        { steps := w_schedule.steps ++ [ScheduleStep.pass "post" "screen"]
          pass_names :=
            if "post" ∈ w_schedule.pass_names then w_schedule.pass_names
            else w_schedule.pass_names ++ ["post"]
          render_targets := w_schedule.render_targets } :=
  ⟨by decide, (claim_C2 w_schedule "post" "screen" "aux" 0).2.2.1 (by decide)⟩

/-- C8 (amended): every schedule reachable through the public construction
interface contains an entry named `"screen"`, and that entry maps to the
`Screen` variant as long as no `with_render_target` call used the name
`"screen"` — such a call overwrites the seeded entry, which the original
claim overlooked (see the counterexample). -/
theorem claim_C8 (ops : List BuildOp) (s : RenderSchedule)
    (h : buildFrom RenderSchedule.builder ops = Except.ok s) :
    containsName s.render_targets "screen" = true
    ∧ ((∀ k, BuildOp.withTarget "screen" k ∉ ops) →
      lookupName s.render_targets "screen" = some RenderTargetKey.screen) := by
  constructor
  · exact buildFrom_contains_screen ops _ s h (by decide)
  · intro hno
    rw [buildFrom_lookup_screen ops _ s h hno]
    rfl

theorem claim_C8_witness :
    buildFrom RenderSchedule.builder [BuildOp.addPass "main" "screen"] =
        Except.ok w_schedule
    ∧ containsName w_schedule.render_targets "screen" = true
    ∧ lookupName w_schedule.render_targets "screen" =
        some RenderTargetKey.screen := by
  have happ := claim_C8 [BuildOp.addPass "main" "screen"] w_schedule rfl
  exact ⟨rfl, happ.1, happ.2 (fun k hm => by simp at hm)⟩

theorem claim_C8_cex :
    lookupName ((RenderSchedule.builder.with_render_target "screen"
        (RenderTargetKey.texture 0)).render_targets) "screen" =
      some (RenderTargetKey.texture 0)
    ∧ RenderTargetKey.texture 0 ≠ RenderTargetKey.screen :=
  ⟨rfl, by decide⟩

/-- C9: `execute()` leaves the queue map empty and the depth counter at
zero, so an immediately repeated `execute()` with no intervening `queue()`
call emits no per-submission draw command (post-process steps are the
only commands it can emit). -/
theorem claim_C9 (r : Renderer) :
    (Renderer.execute r).1.queues = []
    ∧ (Renderer.execute r).1.depth_counter = 0
    ∧ ((Renderer.execute (Renderer.execute r).1).2.all
        (fun e => !e.isDraw)) = true := by
  refine ⟨rfl, rfl, ?_⟩
  rw [execute_events, List.all_eq_true]
  intro e he
  have h := executeSteps_of_queues_nil
    ((Renderer.execute r).1.schedule.steps) (Renderer.execute r).1
    (execute_queues r)
  have := h.2 e he
  simp [this]

/-- C4: a pass name matching no `Pass` step of the schedule is never drawn
— deleting its bucket before `execute()` leaves the emitted command list
unchanged — its submissions are discarded when `execute()` completes
(the queue map is cleared), and `queue()` itself performs no validation
against the schedule: its behaviour is independent of the schedule field. -/
theorem claim_C4 (r : Renderer) (p : RenderPassName)
    (h : ∀ tgt, ScheduleStep.pass p tgt ∉ r.schedule.steps) :
    (Renderer.execute { r with queues := eraseName r.queues p }).2 =
      (Renderer.execute r).2
    ∧ (Renderer.execute r).1.queues = []
    ∧ ∀ (r2 : Renderer) (c : QueueCall) (sched : RenderSchedule),
        Renderer.queueCall { r2 with schedule := sched } c =
          { r2.queueCall c with schedule := sched } := by
  refine ⟨?_, rfl, fun r2 c sched => rfl⟩
  rw [execute_events, execute_events]
  show (executeSteps { r with queues := eraseName r.queues p }
      r.schedule.steps).2 = _
  rw [executeSteps_erase r.schedule.steps r p h]

theorem claim_C4_witness :
    (∀ tgt, ScheduleStep.pass "ghost" tgt ∉ w_renderer.schedule.steps)
    ∧ (Renderer.execute
          { w_renderer with queues := eraseName w_renderer.queues "ghost" }).2 =
        (Renderer.execute w_renderer).2
    ∧ (Renderer.execute w_renderer).1.queues = [] := by
  have h : ∀ tgt, ScheduleStep.pass "ghost" tgt ∉ w_renderer.schedule.steps := by
    intro tgt hm
    simp [w_renderer, w_schedule] at hm
  have happ := claim_C4 w_renderer "ghost" h
  exact ⟨h, happ.1, happ.2.1⟩

theorem create_cached (r : Renderer) (size : Nat × Nat) (name : String)
    (ex : RenderTargetKey)
    (h : lookupName r.assets.dynamic_render_targets name = some ex) :
    r.create_dynamic_render_target size name = (r, ex) := by
  simp [Renderer.create_dynamic_render_target, h]

theorem create_fresh (r : Renderer) (size : Nat × Nat) (name : String)
    (h : lookupName r.assets.dynamic_render_targets name = none) :
    r.create_dynamic_render_target size name =
      ({ r with assets :=
          { r.assets with
              textures :=
                ⟨r.assets.textures.next + 1,
                  r.assets.textures.live ++ [(r.assets.textures.next, size)]⟩
              dynamic_render_targets :=
                insertName r.assets.dynamic_render_targets name
                  (RenderTargetKey.texture r.assets.textures.next) } },
        RenderTargetKey.texture r.assets.textures.next) := by
  simp [Renderer.create_dynamic_render_target, h, TextureStore.insert]

/-- C7 (amended): `queue()` performs no variant-pairing check — a
submission whose `Mapping` and `Transform` variants disagree is accepted
and stored in its bucket exactly like a matched one, with the counter
advanced as usual; the pairing invariant is an unchecked caller
obligation, not a runtime check at submission time (see the
counterexample). -/
theorem claim_C7 (r : Renderer) (c : QueueCall)
    (h : variantsMatch c.mapping c.transform = false) :
    queuedPair (r.queueCall c) c.pass_name =
      (if c.allow_transparency then
        ((queuedPair r c.pass_name).1,
          (queuedPair r c.pass_name).2 ++ [mkEntry c r.depth_counter])
      else
        ((queuedPair r c.pass_name).1 ++ [mkEntry c r.depth_counter],
          (queuedPair r c.pass_name).2))
    ∧ (r.queueCall c).depth_counter = f32succ r.depth_counter := by
  refine ⟨?_, rfl⟩
  rw [queuedPair_queueCall, if_pos rfl]

/-- A sample mismatched submission: sprite mapping paired with a mesh
transform. -/
def w_bad_call : QueueCall :=
  { material := 0
    mapping := Mapping.sprite w_rect
    transform := w_mesh_tf
    uniforms := w_uniforms
    pass_name := "main"
    allow_transparency := true }

theorem claim_C7_witness :
    variantsMatch w_bad_call.mapping w_bad_call.transform = false
    ∧ queuedPair (w_renderer.queueCall w_bad_call) w_bad_call.pass_name =
        (if w_bad_call.allow_transparency then
          ((queuedPair w_renderer w_bad_call.pass_name).1,
            (queuedPair w_renderer w_bad_call.pass_name).2 ++
              [mkEntry w_bad_call w_renderer.depth_counter])
        else
          ((queuedPair w_renderer w_bad_call.pass_name).1 ++
              [mkEntry w_bad_call w_renderer.depth_counter],
            (queuedPair w_renderer w_bad_call.pass_name).2)) :=
  ⟨rfl, (claim_C7 w_renderer w_bad_call rfl).1⟩

theorem claim_C7_cex :
    variantsMatch w_bad_call.mapping w_bad_call.transform = false
    ∧ queuedPair (w_renderer.queueCall w_bad_call) "main" =
        ([], [mkEntry w_bad_call 0])
    ∧ (w_renderer.queueCall w_bad_call).depth_counter = 1 :=
  ⟨rfl, by decide, rfl⟩

/-- C5: `create_dynamic_render_target` is idempotent in the name — an
immediate second call with the same name returns the identical key and
changes nothing at all — while a call with a different, not yet cached
name returns a distinct key backed by a texture freshly inserted into the
slotmap and recorded in the name cache.  `TargetsWF` is the cache
invariant (every cached key is an already-issued texture key) which holds
initially and is preserved by the operation. -/
theorem claim_C5 (r : Renderer) (size1 size2 : Nat × Nat)
    (name1 name2 : String) :
    ((r.create_dynamic_render_target size1 name1).1.create_dynamic_render_target
        size2 name1 = r.create_dynamic_render_target size1 name1)
    ∧ (TargetsWF r → name2 ≠ name1 →
      lookupName r.assets.dynamic_render_targets name2 = none →
      ((r.create_dynamic_render_target size1 name1).1.create_dynamic_render_target
          size2 name2).2 ≠ (r.create_dynamic_render_target size1 name1).2
      ∧ ((r.create_dynamic_render_target size1 name1).1.create_dynamic_render_target
          size2 name2).2 =
        RenderTargetKey.texture
          (r.create_dynamic_render_target size1 name1).1.assets.textures.next
      ∧ ((r.create_dynamic_render_target size1 name1).1.create_dynamic_render_target
          size2 name2).1.assets.textures.live =
        (r.create_dynamic_render_target size1 name1).1.assets.textures.live ++
          [((r.create_dynamic_render_target size1 name1).1.assets.textures.next,
            size2)]
      ∧ lookupName
          ((r.create_dynamic_render_target size1 name1).1.create_dynamic_render_target
            size2 name2).1.assets.dynamic_render_targets name2 =
        some ((r.create_dynamic_render_target size1 name1).1.create_dynamic_render_target
          size2 name2).2) := by
  constructor
  · cases h1 : lookupName r.assets.dynamic_render_targets name1 with
    | some ex =>
        rw [create_cached r size1 name1 ex h1]
        exact create_cached r size2 name1 ex h1
    | none =>
        rw [create_fresh r size1 name1 h1]
        exact create_cached _ size2 name1 _ (by
          simp [lookupName_insertName])
  · intro hwf hne hnew
    cases h1 : lookupName r.assets.dynamic_render_targets name1 with
    | some ex =>
        rw [create_cached r size1 name1 ex h1]
        obtain ⟨t, ht, hlt⟩ := hwf name1 ex h1
        rw [create_fresh r size2 name2 hnew]
        refine ⟨?_, rfl, rfl, by simp [lookupName_insertName]⟩
        intro heq
        rw [ht] at heq
        have hti : r.assets.textures.next = t := by
          injection heq
        rw [← hti] at hlt
        exact lt_irrefl _ hlt
    | none =>
        rw [create_fresh r size1 name1 h1]
        have hnew2 : lookupName
            (insertName r.assets.dynamic_render_targets name1
              (RenderTargetKey.texture r.assets.textures.next)) name2 = none := by
          rw [lookupName_insertName, if_neg hne]
          exact hnew
        rw [create_fresh _ size2 name2 hnew2]
        refine ⟨?_, rfl, rfl, by simp [lookupName_insertName]⟩
        intro heq
        have hti : r.assets.textures.next + 1 = r.assets.textures.next := by
          injection heq
        exact Nat.succ_ne_self _ hti

theorem claim_C5_witness :
    TargetsWF w_renderer
    ∧ ((w_renderer.create_dynamic_render_target (4, 4) "fog").1.create_dynamic_render_target
        (8, 8) "fog" = w_renderer.create_dynamic_render_target (4, 4) "fog")
    ∧ ((w_renderer.create_dynamic_render_target (4, 4) "fog").1.create_dynamic_render_target
        (8, 8) "fog2").2 ≠ (w_renderer.create_dynamic_render_target (4, 4) "fog").2 := by
  have hwf : TargetsWF w_renderer := by
    intro n k h
    simp [w_renderer, lookupName] at h
  have happ := claim_C5 w_renderer (4, 4) (8, 8) "fog" "fog2"
  exact ⟨hwf, happ.1, (happ.2 hwf (by decide) rfl).1⟩

/-- C10: `create_dynamic_render_target` writes only to the asset manager's
texture slotmap and dynamic-target name cache — the renderer's schedule,
queue map, depth counter and material table are untouched — so a later
`add_pass` or `add_process` referencing the new name still fails fatally
unless `with_render_target` registered that name on the schedule. -/
theorem claim_C10 (r : Renderer) (size : Nat × Nat)
    (name pn sub tgt : String) (sh : ShaderKey) (k : RenderTargetKey) :
    (r.create_dynamic_render_target size name).1.schedule = r.schedule
    ∧ (r.create_dynamic_render_target size name).1.queues = r.queues
    ∧ (r.create_dynamic_render_target size name).1.depth_counter =
        r.depth_counter
    ∧ (r.create_dynamic_render_target size name).1.assets.materials =
        r.assets.materials
    ∧ (containsName r.schedule.render_targets name = false →
      (∃ e, r.schedule.add_pass pn name = Except.error e)
      ∧ (∃ e, r.schedule.add_process name sh tgt = Except.error e)
      ∧ (∃ e, r.schedule.add_process sub sh name = Except.error e))
    ∧ (∃ s2, (r.schedule.with_render_target name k).add_pass pn name =
        Except.ok s2) := by
  have hstate : (r.create_dynamic_render_target size name).1.schedule = r.schedule
      ∧ (r.create_dynamic_render_target size name).1.queues = r.queues
      ∧ (r.create_dynamic_render_target size name).1.depth_counter =
          r.depth_counter
      ∧ (r.create_dynamic_render_target size name).1.assets.materials =
          r.assets.materials := by
    cases h : lookupName r.assets.dynamic_render_targets name with
    | some ex =>
        rw [create_cached r size name ex h]
        exact ⟨rfl, rfl, rfl, rfl⟩
    | none =>
        rw [create_fresh r size name h]
        exact ⟨rfl, rfl, rfl, rfl⟩
  refine ⟨hstate.1, hstate.2.1, hstate.2.2.1, hstate.2.2.2, ?_, ?_⟩
  · intro hc
    exact ⟨(add_pass_error_iff r.schedule pn name).mpr hc,
      (add_process_error_iff r.schedule name tgt sh).mpr (Or.inl hc),
      (add_process_error_iff r.schedule sub name sh).mpr (Or.inr hc)⟩
  · exact ⟨_, add_pass_ok_eq _ pn name
      (containsName_with_render_target r.schedule name k)⟩

theorem claim_C10_witness :
    containsName w_renderer.schedule.render_targets "fog" = false
    ∧ (w_renderer.create_dynamic_render_target (4, 4) "fog").1.schedule =
        w_renderer.schedule
    ∧ (∃ e, w_renderer.schedule.add_pass "p" "fog" = Except.error e)
    ∧ (∃ s2, (w_renderer.schedule.with_render_target "fog"
        (RenderTargetKey.texture 0)).add_pass "p" "fog" = Except.ok s2) := by
  have happ := claim_C10 w_renderer (4, 4) "fog" "p" "s" "t" 0
    (RenderTargetKey.texture 0)
  exact ⟨by decide, happ.1, (happ.2.2.2.2.1 (by decide)).1, happ.2.2.2.2.2⟩

/-- C1 (amended): in a frame of `queue()` calls followed by `execute()`,
the draws of each `Pass` step form one contiguous block of the emitted
command list — all opaque submissions of the pass first, then the
transparent submissions in the order the `queue()` calls were made — and
the transparent `queue_depth`s are strictly increasing along the drawn
order provided the frame makes at most `2 ^ 24 + 1` `queue()` calls
(beyond that the f32 depth counter saturates and depths tie; see the
counterexample). -/
theorem claim_C1 (r : Renderer) (calls : List QueueCall)
    (steps1 steps2 : List ScheduleStep) (p : RenderPassName)
    (tgt : RenderTargetName)
    (hq : r.queues = []) (hd : r.depth_counter = 0)
    (hlen : calls.length ≤ 2 ^ 24 + 1)
    (hsteps : r.schedule.steps = steps1 ++ ScheduleStep.pass p tgt :: steps2)
    (hfirst : ∀ t2, ScheduleStep.pass p t2 ∉ steps1) :
    (Renderer.execute (applyCalls r calls)).2 =
      (executeSteps (applyCalls r calls) steps1).2 ++
        (render_batched r.assets tgt (opFor p (taggedFrom 0 calls)) ++
          render_transparent r.assets tgt (trFor p (taggedFrom 0 calls))) ++
        (executeSteps ((executeSteps (applyCalls r calls) steps1).1.executeStep
          (ScheduleStep.pass p tgt)).1 steps2).2
    ∧ List.Pairwise (fun a b => a.queue_depth < b.queue_depth)
        ((trFor p (taggedFrom 0 calls)).filter
          (fun e => !staleMaterial r.assets e)) := by
  constructor
  · have hsched : (applyCalls r calls).schedule.steps =
        steps1 ++ ScheduleStep.pass p tgt :: steps2 := by
      rw [applyCalls_schedule]; exact hsteps
    rw [execute_events, hsched, executeSteps_append, executeSteps_cons]
    rw [passStep_events r calls steps1 p tgt hq hd hfirst]
    simp [List.append_assoc]
  · exact List.Pairwise.sublist (List.filter_sublist _)
      (trFor_pairwise p calls hlen)

theorem claim_C1_witness :
    (w_renderer.queues = [] ∧ w_renderer.depth_counter = 0
      ∧ ([w_call "main" false, w_call "main" true, w_call "main" true] :
          List QueueCall).length ≤ 2 ^ 24 + 1
      ∧ w_renderer.schedule.steps =
          [] ++ ScheduleStep.pass "main" "screen" :: []
      ∧ ∀ t2, ScheduleStep.pass "main" t2 ∉ ([] : List ScheduleStep))
    ∧ List.Pairwise (fun a b => a.queue_depth < b.queue_depth)
        ((trFor "main" (taggedFrom 0
            [w_call "main" false, w_call "main" true, w_call "main" true])).filter
          (fun e => !staleMaterial w_renderer.assets e)) := by
  have happ := claim_C1 w_renderer
    [w_call "main" false, w_call "main" true, w_call "main" true]
    [] [] "main" "screen" rfl rfl (by decide) rfl
    (fun t2 hm => by simp at hm)
  exact ⟨⟨rfl, rfl, by decide, rfl, fun t2 hm => by simp at hm⟩, happ.2⟩

theorem claim_C1_cex :
    ¬ List.Pairwise (fun a b => a.queue_depth < b.queue_depth)
      ((trFor "main" (taggedFrom 0
          (List.replicate (2 ^ 24 + 2) (w_call "main" true)))).filter
        (fun e => !staleMaterial w_renderer.assets e)) := by
  rw [replicate_tr_shape, List.filter_append]
  intro hpw
  have hsub := List.sublist_append_right
    ((trFor "main" (taggedFrom 0
        (List.replicate (2 ^ 24) (w_call "main" true)))).filter
      (fun e => !staleMaterial w_renderer.assets e))
    [mkEntry (w_call "main" true) (2 ^ 24),
      mkEntry (w_call "main" true) (2 ^ 24)]
  have hpw2 := List.Pairwise.sublist hsub hpw
  have h12 := (List.pairwise_cons.mp hpw2).1 _ (List.mem_cons_self _ _)
  exact lt_irrefl _ h12

/-- C3 (amended): in a frame of at most `2 ^ 24` `queue()` calls begun with
an empty queue map and a zero counter, the depth counter increments on
every call (ending equal to the number of calls), the `i`-th call's
submission records `queue_depth = i` — so depths are unique, stable and
strictly increasing in call order — and completing `execute()` resets the
counter to zero and empties the queue map.  Beyond `2 ^ 24` calls the f32
counter saturates and depths repeat (see the counterexample). -/
theorem claim_C3 (r : Renderer) (calls : List QueueCall) (p : RenderPassName)
    (hq : r.queues = []) (hd : r.depth_counter = 0)
    (hlen : calls.length ≤ 2 ^ 24) :
    (applyCalls r calls).depth_counter = calls.length
    ∧ (Renderer.execute (applyCalls r calls)).1.depth_counter = 0
    ∧ (Renderer.execute (applyCalls r calls)).1.queues = []
    ∧ queuedPair (applyCalls r calls) p =
        (opFor p (taggedFrom 0 calls), trFor p (taggedFrom 0 calls))
    ∧ (taggedFrom 0 calls).map Prod.snd = List.range calls.length := by
  refine ⟨?_, rfl, rfl, queuedPair_fresh r calls p hq hd,
    taggedFrom_snd_range calls hlen⟩
  rw [applyCalls_depth, hd, f32succ_iterate_zero]
  exact min_eq_left hlen

theorem claim_C3_witness :
    (w_renderer.queues = [] ∧ w_renderer.depth_counter = 0
      ∧ ([w_call "main" false, w_call "a" true, w_call "main" true] :
          List QueueCall).length ≤ 2 ^ 24)
    ∧ (applyCalls w_renderer
        [w_call "main" false, w_call "a" true, w_call "main" true]).depth_counter =
      ([w_call "main" false, w_call "a" true, w_call "main" true] :
        List QueueCall).length
    ∧ (taggedFrom 0
        [w_call "main" false, w_call "a" true, w_call "main" true]).map Prod.snd =
      List.range ([w_call "main" false, w_call "a" true, w_call "main" true] :
        List QueueCall).length := by
  have happ := claim_C3 w_renderer
    [w_call "main" false, w_call "a" true, w_call "main" true] "main"
    rfl rfl (by decide)
  exact ⟨⟨rfl, rfl, by decide⟩, happ.1, happ.2.2.2.2⟩

theorem claim_C3_cex :
    (applyCalls w_renderer
        (List.replicate (2 ^ 24 + 2) (w_call "main" true))).depth_counter =
      2 ^ 24
    ∧ ¬ ((queuedPair (applyCalls w_renderer
          (List.replicate (2 ^ 24 + 2) (w_call "main" true))) "main").2.map
        RenderQueue.queue_depth).Nodup := by
  constructor
  · rw [applyCalls_depth]
    show f32succ^[(List.replicate (2 ^ 24 + 2) (w_call "main" true)).length] 0 =
      2 ^ 24
    rw [List.length_replicate, f32succ_iterate_zero]
    exact min_eq_right (Nat.le_add_right _ _)
  · rw [queuedPair_fresh w_renderer _ "main" rfl rfl]
    show ¬ ((trFor "main" (taggedFrom 0
        (List.replicate (2 ^ 24 + 2) (w_call "main" true)))).map
      RenderQueue.queue_depth).Nodup
    rw [replicate_tr_shape, List.map_append]
    intro hnd
    have hsub := List.sublist_append_right
      ((trFor "main" (taggedFrom 0
          (List.replicate (2 ^ 24) (w_call "main" true)))).map
        RenderQueue.queue_depth)
      [(2 ^ 24 : Nat), 2 ^ 24]
    have hnd2 := hnd.sublist hsub
    simp at hnd2

/-- C6: for a frame of `queue()` calls from a fresh state, the `Pass` step
for pass `p` drains an opaque and a transparent bucket whose sizes add up
to exactly the number of calls that targeted `p`, and the draws it emits
number exactly the non-stale ones among them — stale submissions are
skipped without aborting the step. -/
theorem claim_C6 (r : Renderer) (calls : List QueueCall)
    (steps1 : List ScheduleStep) (p : RenderPassName) (tgt : RenderTargetName)
    (hq : r.queues = []) (hd : r.depth_counter = 0)
    (hfirst : ∀ t2, ScheduleStep.pass p t2 ∉ steps1) :
    (queuedPair (applyCalls r calls) p).1.length +
        (queuedPair (applyCalls r calls) p).2.length =
      (calls.filter (fun c => c.pass_name == p)).length
    ∧ ((executeSteps (applyCalls r calls) steps1).1.executeStep
          (ScheduleStep.pass p tgt)).2.length =
      (calls.filter (fun c =>
        c.pass_name == p && !staleCall r.assets c)).length := by
  constructor
  · rw [queuedPair_fresh r calls p hq hd]
    show (opFor p (taggedFrom 0 calls)).length +
        (trFor p (taggedFrom 0 calls)).length = _
    rw [length_opFor_add_trFor]
    exact taggedFrom_filter_length (fun c => c.pass_name == p) calls 0
  · rw [passStep_events r calls steps1 p tgt hq hd hfirst]
    rw [List.length_append, render_batched, render_transparent,
      List.length_map, List.length_map, length_drawn_filter]
    exact taggedFrom_filter_length
      (fun c => c.pass_name == p && !staleCall r.assets c) calls 0

theorem claim_C6_witness :
    (w_renderer.queues = [] ∧ w_renderer.depth_counter = 0
      ∧ ∀ t2, ScheduleStep.pass "main" t2 ∉ ([] : List ScheduleStep))
    ∧ (queuedPair (applyCalls w_renderer
          [w_call "main" false, w_call "ghost" true, w_call "main" true]) "main").1.length +
        (queuedPair (applyCalls w_renderer
          [w_call "main" false, w_call "ghost" true, w_call "main" true]) "main").2.length =
      ([w_call "main" false, w_call "ghost" true, w_call "main" true].filter
        (fun c => c.pass_name == "main")).length
    ∧ ((executeSteps (applyCalls w_renderer
          [w_call "main" false, w_call "ghost" true, w_call "main" true])
          []).1.executeStep (ScheduleStep.pass "main" "screen")).2.length =
      ([w_call "main" false, w_call "ghost" true, w_call "main" true].filter
        (fun c => c.pass_name == "main" && !staleCall w_renderer.assets c)).length := by
  have happ := claim_C6 w_renderer
    [w_call "main" false, w_call "ghost" true, w_call "main" true]
    [] "main" "screen" rfl rfl (fun t2 hm => by simp at hm)
  exact ⟨⟨rfl, rfl, fun t2 hm => by simp at hm⟩, happ.1, happ.2⟩

end SQGui
